import Mathlib

/-!
Shallow embedding of the go-sets repository: the `stringset` package and the
`makeset` generator (its `Config` handling and the set ADT produced by its
`mainFile` template, instantiated at element type `string`, whose zero value
is the empty string).

A Go value of map type `Set map[string]struct{}` is either the nil map or an
allocated map; a nil map reads as empty, and the two are distinguishable by
an identity (`== nil`) check.  We model this with `GoSet`: `GoSet.nilset` is
the nil map, `GoSet.alloc m` an allocated map whose key set is the finset
`m` (so `GoSet.alloc ∅` is an allocated-but-empty map, distinct from
`GoSet.nilset`).  Go map iteration order is unspecified; every operation
modelled here is insensitive to it, and where the code iterates we fold over
a list of the members (ascending where the code sorts).
-/

namespace GoSets

/-- Lexicographic strict order on lists of characters, compared by code
point.  This models Go's byte-wise `<` on (UTF-8) strings: UTF-8 byte
order coincides with code-point order. -/
def lexLt : List Char → List Char → Bool
  | _, [] => false
  | [], _ :: _ => true
  | a :: as, b :: bs =>
    if a.toNat < b.toNat then true
    else if b.toNat < a.toNat then false
    else lexLt as bs

/-- Go `x <= y` on strings: the negation of the reversed strict order. -/
def strLe (a b : String) : Bool := ! lexLt b.data a.data

/-- Nothing is lexicographically below itself. -/
theorem lexLt_self : ∀ l : List Char, lexLt l l = false
  | [] => rfl
  | a :: as => by simp [lexLt, lexLt_self as]

/-- The lexicographic order is asymmetric. -/
theorem lexLt_asymm : ∀ x y : List Char, lexLt x y = true → lexLt y x = false
  | x, [], h => by cases x <;> simp [lexLt] at h
  | [], _ :: _, _ => rfl
  | a :: as, b :: bs, h => by
    rcases Nat.lt_trichotomy a.toNat b.toNat with hab | hab | hab
    · simp [lexLt, hab, Nat.lt_asymm hab]
    · have nab : ¬ a.toNat < b.toNat := by omega
      have nba : ¬ b.toNat < a.toNat := by omega
      simp only [lexLt, nab, nba, if_false, ite_false] at h ⊢
      exact lexLt_asymm as bs h
    · simp [lexLt, Nat.lt_asymm hab, hab] at h

/-- The lexicographic order is transitive. -/
theorem lexLt_trans :
    ∀ x y z : List Char, lexLt x y = true → lexLt y z = true → lexLt x z = true
  | _, y, [], _, h2 => by cases y <;> simp [lexLt] at h2
  | x, [], _ :: _, h1, _ => by cases x <;> simp [lexLt] at h1
  | [], _ :: _, _ :: _, _, _ => rfl
  | a :: as, b :: bs, c :: cs, h1, h2 => by
    rcases Nat.lt_trichotomy a.toNat b.toNat with hab | hab | hab
    · rcases Nat.lt_trichotomy b.toNat c.toNat with hbc | hbc | hbc
      · simp [lexLt, Nat.lt_trans hab hbc]
      · simp [lexLt, show a.toNat < c.toNat by omega]
      · simp [lexLt, Nat.lt_asymm hbc, hbc] at h2
    · rcases Nat.lt_trichotomy b.toNat c.toNat with hbc | hbc | hbc
      · simp [lexLt, show a.toNat < c.toNat by omega]
      · have nab : ¬ a.toNat < b.toNat := by omega
        have nba : ¬ b.toNat < a.toNat := by omega
        have nbc : ¬ b.toNat < c.toNat := by omega
        have ncb : ¬ c.toNat < b.toNat := by omega
        have nac : ¬ a.toNat < c.toNat := by omega
        have nca : ¬ c.toNat < a.toNat := by omega
        simp only [lexLt, nab, nba, nbc, ncb, nac, nca, if_false, ite_false]
          at h1 h2 ⊢
        exact lexLt_trans as bs cs h1 h2
      · simp [lexLt, Nat.lt_asymm hbc, hbc] at h2
    · simp [lexLt, Nat.lt_asymm hab, hab] at h1

/-- Lists that are lexicographically below each other in neither direction
are equal. -/
theorem lexLt_eq_of_not :
    ∀ x y : List Char, lexLt x y = false → lexLt y x = false → x = y
  | [], [], _, _ => rfl
  | [], _ :: _, h1, _ => by cases h1
  | _ :: _, [], _, h2 => by cases h2
  | a :: as, b :: bs, h1, h2 => by
    rcases Nat.lt_trichotomy a.toNat b.toNat with hab | hab | hab
    · simp [lexLt, hab] at h1
    · have nab : ¬ a.toNat < b.toNat := by omega
      have nba : ¬ b.toNat < a.toNat := by omega
      simp only [lexLt, nab, nba, if_false, ite_false] at h1 h2
      have hc : a = b := by
        have hch := congrArg Char.ofNat hab
        rwa [Char.ofNat_toNat, Char.ofNat_toNat] at hch
      rw [hc, lexLt_eq_of_not as bs h1 h2]
    · simp [lexLt, hab] at h2

instance : IsTotal String (fun a b => strLe a b = true) :=
  ⟨fun a b => by
    unfold strLe
    simp only [Bool.not_eq_true']
    cases h : lexLt b.data a.data
    · exact Or.inl rfl
    · exact Or.inr (lexLt_asymm _ _ h)⟩

instance : IsTrans String (fun a b => strLe a b = true) :=
  ⟨fun a b c h1 h2 => by
    unfold strLe at h1 h2 ⊢
    simp only [Bool.not_eq_true'] at h1 h2 ⊢
    cases hc : lexLt c.data a.data
    · rfl
    · cases hbc : lexLt b.data c.data
      · have hdata := lexLt_eq_of_not b.data c.data hbc h2
        rw [hdata] at h1
        rw [h1] at hc
        cases hc
      · have hba := lexLt_trans b.data c.data a.data hbc hc
        rw [hba] at h1
        cases h1⟩

instance : IsAntisymm String (fun a b => strLe a b = true) :=
  ⟨fun a b h1 h2 => by
    unfold strLe at h1 h2
    simp only [Bool.not_eq_true'] at h1 h2
    have hdata := lexLt_eq_of_not a.data b.data h2 h1
    exact String.toList_inj.mp hdata⟩


/-- Model of the generated/stringset `Set` type: nil map or allocated map
with the given keys. -/
inductive GoSet where
  | nilset : GoSet
  | alloc : Finset String → GoSet
deriving DecidableEq

namespace GoSet

/-- The membership a Go map read observes: a nil map has no keys. -/
def members : GoSet → Finset String
  | .nilset => ∅
  | .alloc m => m

/-- Go `len(s)` on a map (0 for nil). `Len` in the source. -/
def size (s : GoSet) : Nat := s.members.card

/-- `Empty` in the source: `len(s) == 0`. -/
def isEmpty (s : GoSet) : Bool := s.size == 0

/-- A single Go map write `s[k] = struct{}{}`.  Writing to a nil map panics
in Go; the checked variant `mapWriteC` below models the panic, and the
theorems for C8 show the guarded operations never reach the nil case, which
justifies completing this total variant with a no-op there. -/
def mapWrite (s : GoSet) (k : String) : GoSet :=
  match s with
  | .nilset => .nilset
  | .alloc m => .alloc (insert k m)

/-- A Go map delete `delete(s, k)`: a no-op on a nil map (never panics). -/
def mapDelete (s : GoSet) (k : String) : GoSet :=
  match s with
  | .nilset => .nilset
  | .alloc m => .alloc (m.erase k)

/-- A loop `for _, k := range ks { s[k] = struct{}{} }`. -/
def insertList (s : GoSet) (ks : List String) : GoSet :=
  ks.foldl mapWrite s

/-- A loop `for _, k := range ks { delete(s, k) }`. -/
def deleteList (s : GoSet) (ks : List String) : GoSet :=
  ks.foldl mapDelete s

/-- Checked single map write: `none` models the panic on writing to nil. -/
def mapWriteC (s : GoSet) (k : String) : Option GoSet :=
  match s with
  | .nilset => none
  | .alloc m => some (.alloc (insert k m))

/-- Checked write loop: propagates the panic of any single write. -/
def insertListC (s : GoSet) (ks : List String) : Option GoSet :=
  ks.foldlM mapWriteC s

/-- Ascending sort of the underlying multiset of keys, implemented by
structural insertion sort (with the byte-wise order `strLe`) so that it
evaluates inside the kernel. -/
def sortedList (m : Multiset String) : List String :=
  Quot.liftOn m (fun l => l.insertionSort (fun a b => strLe a b = true)) (by
    intro l1 l2 h
    exact List.eq_of_perm_of_sorted
      (((l1.perm_insertionSort _).trans h).trans
        (l2.perm_insertionSort _).symm)
      (l1.sorted_insertionSort _) (l2.sorted_insertionSort _))

/-- `Keys` (stringset) / `Elements` (mainFile template at type string):
collect the keys and sort them ascending (`sort.Strings`, and
`sort.Sort(byElement)` whose `Less` is the built-in `<` on strings). -/
def keys (s : GoSet) : List String :=
  sortedList s.members.val

/-- `New` of the mainFile template: `make(Set, len(elts))` (always non-nil)
then insert each argument. -/
def newSet (elts : List String) : GoSet :=
  insertList (.alloc ∅) elts

/-- `NewSize` of the mainFile template: `make(Set, n)`, which panics
(modelled by `none`) when `n < 0`. -/
def newSize (n : Int) : Option GoSet :=
  if n < 0 then none else some (.alloc ∅)

/-- `Contains` of the mainFile template (= `ContainsAll` of stringset):
return false at the first missing element, true past the end. -/
def contains (s : GoSet) : List String → Bool
  | [] => true
  | e :: rest => if e ∈ s.members then contains s rest else false

/-- `IsSubset` of the mainFile template. -/
def isSubset (s s2 : GoSet) : Bool :=
  if s.isEmpty then true
  else if s.size > s2.size then false
  else decide (s.members ⊆ s2.members)

/-- `Equals` of the mainFile template: `len(s) == len(s2) && s.IsSubset(s2)`. -/
def equals (s s2 : GoSet) : Bool :=
  s.size == s2.size && s.isSubset s2

/-- `Union`: returns an operand when the other is empty, else a freshly
allocated map holding the keys of both. -/
def union (s s2 : GoSet) : GoSet :=
  if s.isEmpty then s2
  else if s2.isEmpty then s
  else .alloc (s.members ∪ s2.members)

/-- `Intersect` of the mainFile template: nil when either operand is empty;
else build the common keys in a fresh map and return nil when none. -/
def intersect (s s2 : GoSet) : GoSet :=
  if s.isEmpty || s2.isEmpty then .nilset
  else
    let t := s.members.filter (fun k => k ∈ s2.members)
    if t.card = 0 then .nilset else .alloc t

/-- `Diff` of the mainFile template: the receiver itself when either operand
is empty; else build the surviving keys in a fresh map, nil when none. -/
def diff (s s2 : GoSet) : GoSet :=
  if s.isEmpty || s2.isEmpty then s
  else
    let t := s.members.filter (fun k => k ∉ s2.members)
    if t.card = 0 then .nilset else .alloc t

/-- `Update`: record the incoming length, allocate when the receiver is nil
and the argument nonempty, insert every key of the argument, and report
whether the length changed. -/
def update (s1 s2 : GoSet) : GoSet × Bool :=
  let i := s1.size
  let s1a := if s1 = .nilset ∧ 0 < s2.size then GoSet.alloc ∅ else s1
  let s1b := insertList s1a s2.keys
  (s1b, decide (s1b.size ≠ i))

/-- `Add`: record the incoming length, allocate when the receiver is nil,
insert every argument, and report whether the length changed. -/
def add (s : GoSet) (ks : List String) : GoSet × Bool :=
  let i := s.size
  let sa := if s = .nilset then GoSet.alloc ∅ else s
  let sb := insertList sa ks
  (sb, decide (sb.size ≠ i))

/-- `Remove`: delete the keys of the argument set (guarded by non-emptiness
of the receiver) and report whether the length changed. -/
def remove (s1 s2 : GoSet) : GoSet × Bool :=
  let i := s1.size
  let s1a := if ¬ s1.isEmpty then deleteList s1 s2.keys else s1
  (s1a, decide (s1a.size ≠ i))

/-- `Discard`: delete each argument (guarded by non-emptiness of the
receiver) and report whether the length changed. -/
def discard (s : GoSet) (ks : List String) : GoSet × Bool :=
  let i := s.size
  let sa := if ¬ s.isEmpty then deleteList s ks else s
  (sa, decide (sa.size ≠ i))

/-- Checked `Update`: the writes go through `mapWriteC`. -/
def updateC (s1 s2 : GoSet) : Option (GoSet × Bool) :=
  let i := s1.size
  let s1a := if s1 = .nilset ∧ 0 < s2.size then GoSet.alloc ∅ else s1
  (insertListC s1a s2.keys).map (fun s1b => (s1b, decide (s1b.size ≠ i)))

/-- Checked `Add`: the writes go through `mapWriteC`. -/
def addC (s : GoSet) (ks : List String) : Option (GoSet × Bool) :=
  let i := s.size
  let sa := if s = .nilset then GoSet.alloc ∅ else s
  (insertListC sa ks).map (fun sb => (sb, decide (sb.size ≠ i)))

/-- `Choose` of the mainFile template, at element type string (zero value
`""`): with a nil predicate take the first element of the iteration if any;
with a predicate take the first element satisfying it.  Go map iteration
order is unspecified; the model iterates ascending (the order of `keys`). -/
def choose (s : GoSet) (f : Option (String → Bool)) : String × Bool :=
  match f with
  | none =>
    match s.keys with
    | [] => ("", false)
    | k :: _ => (k, true)
  | some p =>
    match s.keys.find? p with
    | some k => (k, true)
    | none => ("", false)

/-- `Pop` of the mainFile template: `Choose`, then delete the found
element. -/
def pop (s : GoSet) (f : Option (String → Bool)) : (String × Bool) × GoSet :=
  match choose s f with
  | (v, true) => ((v, true), mapDelete s v)
  | (_, false) => (("", false), s)

/-- Go `strconv.Quote` for one character, faithful on ASCII: escape the
quote, backslash, and the named control characters; `\xHH` for other
control bytes and DEL; other characters (printable ASCII and all
higher code points, which `strconv.Quote` leaves intact when printable)
are kept as they are. -/
def quoteChar (c : Char) : String :=
  if c = '"' then "\\\""
  else if c = '\\' then "\\\\"
  else if c = '\n' then "\\n"
  else if c = '\t' then "\\t"
  else if c = '\r' then "\\r"
  else if c.toNat = 7 then "\\a"
  else if c.toNat = 8 then "\\b"
  else if c.toNat = 11 then "\\v"
  else if c.toNat = 12 then "\\f"
  else if c.toNat < 32 ∨ c.toNat = 127 then
    "\\x" ++ String.mk [Nat.digitChar (c.toNat / 16), Nat.digitChar (c.toNat % 16)]
  else String.singleton c

/-- Go `strconv.Quote`: the escaped text between double quotes. -/
def quote (s : String) : String :=
  "\"" ++ String.join (s.toList.map quoteChar) ++ "\""

/-- `String` of the stringset package: `ø` when empty, else the quoted
keys in ascending order, comma-joined, between braces. -/
def toStr (s : GoSet) : String :=
  if s.isEmpty then "ø"
  else "\x7b" ++ String.intercalate ", " (s.keys.map quote) ++ "\x7d"

end GoSet

/-- Model of the makeset `Config` structure: the JSON-decoded fields that
validation, import resolution and the two templates consume.  `testValues`
entries are kept as their literal spellings. -/
structure Config where
  desc : String
  package : String
  typeName : String
  zero : String
  decl : String
  less : String
  toStringBody : String
  imports : List String
  testImports : List String
  transforms : Bool
  testValues : List String
deriving DecidableEq

/-- `Config.validate`: reject a missing package name, type name or zero
value, in that order. -/
def Config.validate (c : Config) : Except String Unit :=
  if c.package = "" then .error "invalid: missing package name"
  else if c.typeName = "" then .error "invalid: missing type name"
  else if c.zero = "" then .error "invalid: missing zero value"
  else .ok ()

/-- `baseImports`: the packages the static portion of the template always
needs. -/
def baseImports : List String := ["reflect", "sort", "strings"]

/-- The import-resolution step of `readConfig`: a string-keyed map is
filled with the base imports, the configured imports, and `fmt` when no
`toString` body is given (the generic stringifier needs `fmt.Sprint`);
its keys are collected and sorted with `sort.Strings`. -/
def resolveImports (c : Config) : List String :=
  GoSet.sortedList ((baseImports.toFinset ∪ c.imports.toFinset ∪
    (if c.toStringBody = "" then {"fmt"} else ∅)).val)

/-- `readConfig` after JSON decoding (file/stdin reading and JSON parsing
are I/O wrappers outside the model): replace the import list by its
resolved form, then validate; the caller treats a validation error as
fatal. -/
def readConfig (c : Config) : Except String Config :=
  let c2 := { c with imports := resolveImports c }
  match c2.validate with
  | .error e => .error e
  | .ok _ => .ok c2

/-- `main` after flag parsing: load and validate the configuration, check
the test-value count, then write the implementation file and, when test
values are present, the test file.  `Except.error` models `log.Fatal`,
which terminates the run before any later step; a produced file is
modelled as its path paired with the resolved configuration, which
(together with the constant template text) determines the file's bytes,
since `text/template` substitution is a pure function of the
configuration. -/
def mainFlow (c : Config) : Except String (List (String × Config)) :=
  match readConfig c with
  | .error e => .error e
  | .ok conf =>
    if 0 < conf.testValues.length ∧ conf.testValues.length ≠ 10 then
      .error "wrong number of test values; exactly 10 are required"
    else if conf.testValues.length ≠ 0 then
      .ok [(conf.package ++ ".go", conf), (conf.package ++ "_test.go", conf)]
    else
      .ok [(conf.package ++ ".go", conf)]

/-- Whether a run reached `log.Fatal` (and hence wrote nothing). -/
def isErr (r : Except String (List (String × Config))) : Bool :=
  match r with
  | .error _ => true
  | .ok _ => false

end GoSets

namespace GoSets

namespace GoSet

/-! Supporting lemmas about the embedded set operations. -/

/-- `sortedList` returns a rearrangement of its input. -/
theorem sortedList_coe (m : Multiset String) :
    ((sortedList m : List String) : Multiset String) = m :=
  Quot.inductionOn m fun l => Quot.sound (l.perm_insertionSort _)

/-- `sortedList` is sorted with respect to the byte-wise order. -/
theorem sortedList_sorted (m : Multiset String) :
    (sortedList m).Sorted (fun a b => strLe a b = true) :=
  Quot.inductionOn m fun l => l.sorted_insertionSort _

/-- Membership is preserved by `sortedList`. -/
theorem mem_sortedList {m : Multiset String} {x : String} :
    x ∈ sortedList m ↔ x ∈ m := by
  rw [← Multiset.mem_coe, sortedList_coe]

/-- `sortedList` of a duplicate-free multiset is duplicate-free. -/
theorem sortedList_nodup (m : Multiset String) (h : m.Nodup) :
    (sortedList m).Nodup := by
  rw [← Multiset.coe_nodup, sortedList_coe]
  exact h

/-- The keys of a set, as a finset, are its members. -/
theorem keys_toFinset (s : GoSet) : (keys s).toFinset = s.members := by
  rw [keys, ← List.toFinset_coe, sortedList_coe, Finset.val_toFinset]

/-- Membership in the key list is membership in the set. -/
theorem mem_keys {s : GoSet} {x : String} : x ∈ keys s ↔ x ∈ s.members := by
  rw [keys, mem_sortedList]
  exact Finset.mem_def.symm

/-- The key list is sorted ascending. -/
theorem keys_sorted (s : GoSet) : (keys s).Sorted (fun a b => strLe a b = true) :=
  sortedList_sorted _

/-- The key list has no duplicates. -/
theorem keys_nodup (s : GoSet) : (keys s).Nodup :=
  sortedList_nodup _ s.members.nodup

/-- `Empty` answers true exactly on sets with no members. -/
theorem isEmpty_iff {s : GoSet} : s.isEmpty = true ↔ s.members = ∅ := by
  rw [isEmpty, size, beq_iff_eq, Finset.card_eq_zero]

/-- Inserting a key list into an allocated map adds exactly those keys. -/
theorem insertList_alloc :
    ∀ (ks : List String) (m : Finset String),
      insertList (.alloc m) ks = .alloc (m ∪ ks.toFinset)
  | [], m => by simp [insertList]
  | k :: ks, m => by
    rw [insertList]
    show insertList (.alloc (insert k m)) ks = _
    rw [insertList_alloc ks (insert k m), List.toFinset_cons, Finset.insert_union,
      Finset.union_insert]

/-- Writing through a nil map leaves the nil map (the checked variant
records the panic instead). -/
theorem insertList_nilset : ∀ ks : List String, insertList .nilset ks = .nilset
  | [] => rfl
  | _ :: ks => insertList_nilset ks

/-- Erasing then subtracting is subtracting the enlarged set. -/
theorem erase_sdiff_insert (m : Finset String) (k : String) (t : Finset String) :
    (m.erase k) \ t = m \ insert k t := by
  ext x
  simp only [Finset.mem_sdiff, Finset.mem_erase, Finset.mem_insert]
  tauto

/-- Deleting a key list from an allocated map removes exactly those keys. -/
theorem deleteList_alloc :
    ∀ (ks : List String) (m : Finset String),
      deleteList (.alloc m) ks = .alloc (m \ ks.toFinset)
  | [], m => by simp [deleteList]
  | k :: ks, m => by
    rw [deleteList]
    show deleteList (.alloc (m.erase k)) ks = _
    rw [deleteList_alloc ks (m.erase k), List.toFinset_cons, erase_sdiff_insert]

/-- Deleting from the nil map is a no-op. -/
theorem deleteList_nilset : ∀ ks : List String, deleteList .nilset ks = .nilset
  | [] => rfl
  | _ :: ks => deleteList_nilset ks

/-- `New` collects exactly the distinct arguments. -/
theorem members_newSet (elts : List String) :
    (newSet elts).members = elts.toFinset := by
  rw [newSet, insertList_alloc]
  simp [members]

/-- `New` never returns the nil map. -/
theorem newSet_ne_nilset (elts : List String) : newSet elts ≠ .nilset := by
  rw [newSet, insertList_alloc]
  simp

/-- `Union` computes the union of the members. -/
theorem members_union (s s2 : GoSet) :
    (union s s2).members = s.members ∪ s2.members := by
  rw [union]
  split_ifs with h1 h2
  · rw [isEmpty_iff.mp h1, Finset.empty_union]
  · rw [isEmpty_iff.mp h2, Finset.union_empty]
  · rfl

/-- `Intersect` computes the intersection of the members. -/
theorem members_intersect (s s2 : GoSet) :
    (intersect s s2).members = s.members ∩ s2.members := by
  rw [intersect]
  simp only [Finset.filter_mem_eq_inter]
  by_cases h1 : (s.isEmpty || s2.isEmpty) = true
  · rw [if_pos h1]
    rcases Bool.or_eq_true_iff.mp h1 with h | h
    · rw [isEmpty_iff.mp h, Finset.empty_inter]
      rfl
    · rw [isEmpty_iff.mp h, Finset.inter_empty]
      rfl
  · rw [if_neg h1]
    by_cases h2 : (s.members ∩ s2.members).card = 0
    · rw [if_pos h2, Finset.card_eq_zero.mp h2]
      rfl
    · rw [if_neg h2]
      rfl

/-- `Diff` computes the difference of the members. -/
theorem members_diff (s s2 : GoSet) :
    (diff s s2).members = s.members \ s2.members := by
  rw [diff]
  simp only [← Finset.sdiff_eq_filter]
  by_cases h1 : (s.isEmpty || s2.isEmpty) = true
  · rw [if_pos h1]
    rcases Bool.or_eq_true_iff.mp h1 with h | h
    · rw [isEmpty_iff.mp h, Finset.empty_sdiff]
    · rw [isEmpty_iff.mp h, Finset.sdiff_empty]
  · rw [if_neg h1]
    by_cases h2 : (s.members \ s2.members).card = 0
    · rw [if_pos h2, Finset.card_eq_zero.mp h2]
      rfl
    · rw [if_neg h2]
      rfl

/-- `delete` removes exactly the given key. -/
theorem members_mapDelete (s : GoSet) (k : String) :
    (mapDelete s k).members = s.members.erase k := by
  cases s
  · simp [mapDelete, members, Finset.erase_empty]
  · rfl

end GoSet

end GoSets

namespace GoSets

namespace GoSet

/-- `Update` yields the union of the members in every case. -/
theorem members_update (s1 s2 : GoSet) :
    ((update s1 s2).1).members = s1.members ∪ s2.members := by
  rw [update]
  by_cases h : s1 = .nilset ∧ 0 < s2.size
  · rw [if_pos h]
    dsimp only
    rw [insertList_alloc, keys_toFinset, h.1]
    simp [members]
  · rw [if_neg h]
    dsimp only
    cases s1 with
    | nilset =>
      have h2 : s2.size = 0 := by
        by_contra hh
        exact h ⟨rfl, Nat.pos_of_ne_zero hh⟩
      have h3 : s2.members = ∅ := Finset.card_eq_zero.mp h2
      rw [insertList_nilset, h3]
      rfl
    | alloc m =>
      rw [insertList_alloc, keys_toFinset]
      rfl

/-- `Add` yields the union with the argument list in every case. -/
theorem members_add (s : GoSet) (ks : List String) :
    ((add s ks).1).members = s.members ∪ ks.toFinset := by
  rw [add]
  by_cases h : s = .nilset
  · rw [if_pos h]
    dsimp only
    rw [insertList_alloc, h]
    simp [members]
  · rw [if_neg h]
    dsimp only
    cases s with
    | nilset => exact absurd rfl h
    | alloc m =>
      rw [insertList_alloc]
      rfl

/-- `Remove` yields the difference of the members in every case. -/
theorem members_remove (s1 s2 : GoSet) :
    ((remove s1 s2).1).members = s1.members \ s2.members := by
  rw [remove]
  by_cases h : s1.isEmpty = true
  · rw [if_neg (by simp [h])]
    dsimp only
    rw [isEmpty_iff.mp h, Finset.empty_sdiff]
  · rw [if_pos (by simp [h])]
    dsimp only
    cases s1 with
    | nilset => exact absurd (rfl : GoSet.isEmpty .nilset = true) h
    | alloc m =>
      rw [deleteList_alloc, keys_toFinset]
      rfl

/-- `Discard` yields the difference with the argument list in every case. -/
theorem members_discard (s : GoSet) (ks : List String) :
    ((discard s ks).1).members = s.members \ ks.toFinset := by
  rw [discard]
  by_cases h : s.isEmpty = true
  · rw [if_neg (by simp [h])]
    dsimp only
    rw [isEmpty_iff.mp h, Finset.empty_sdiff]
  · rw [if_pos (by simp [h])]
    dsimp only
    cases s with
    | nilset => exact absurd (rfl : GoSet.isEmpty .nilset = true) h
    | alloc m =>
      rw [deleteList_alloc]
      rfl

/-- For nested finsets, the cardinalities differ exactly when the sets
differ. -/
theorem card_ne_iff_of_subset {a b : Finset String} (h : a ⊆ b) :
    b.card ≠ a.card ↔ b ≠ a := by
  constructor
  · intro hc he
    exact hc (he ▸ rfl)
  · intro hne hc
    exact hne (Finset.eq_of_subset_of_card_le h (le_of_eq hc)).symm

/-- The boolean an `Update` returns, by definition. -/
theorem update_snd (s1 s2 : GoSet) :
    (update s1 s2).2 = decide ((update s1 s2).1.size ≠ s1.size) := rfl

/-- The boolean an `Add` returns, by definition. -/
theorem add_snd (s : GoSet) (ks : List String) :
    (add s ks).2 = decide ((add s ks).1.size ≠ s.size) := rfl

/-- The boolean a `Remove` returns, by definition. -/
theorem remove_snd (s1 s2 : GoSet) :
    (remove s1 s2).2 = decide ((remove s1 s2).1.size ≠ s1.size) := rfl

/-- The boolean a `Discard` returns, by definition. -/
theorem discard_snd (s : GoSet) (ks : List String) :
    (discard s ks).2 = decide ((discard s ks).1.size ≠ s.size) := rfl

/-- A growing operation reports a change exactly when membership changed. -/
theorem changed_iff_of_superset {r : GoSet × Bool} {s0 : GoSet}
    (hsub : s0.members ⊆ r.1.members)
    (hsnd : r.2 = decide (r.1.size ≠ s0.size)) :
    r.2 = true ↔ r.1.members ≠ s0.members := by
  rw [hsnd, decide_eq_true_iff, size, size]
  exact card_ne_iff_of_subset hsub

/-- A shrinking operation reports a change exactly when membership
changed. -/
theorem changed_iff_of_subset {r : GoSet × Bool} {s0 : GoSet}
    (hsub : r.1.members ⊆ s0.members)
    (hsnd : r.2 = decide (r.1.size ≠ s0.size)) :
    r.2 = true ↔ r.1.members ≠ s0.members := by
  rw [hsnd, decide_eq_true_iff, size, size]
  constructor
  · intro hc he
    exact hc (he ▸ rfl)
  · intro hne hc
    exact hne (Finset.eq_of_subset_of_card_le hsub (le_of_eq hc.symm))

end GoSet

end GoSets

namespace GoSets

namespace GoSet

/-- Checked writes into an allocated map never panic and agree with the
total writes. -/
theorem insertListC_alloc :
    ∀ (ks : List String) (m : Finset String),
      insertListC (.alloc m) ks = some (insertList (.alloc m) ks)
  | [], _ => rfl
  | _ :: ks, m => insertListC_alloc ks (insert _ m)

/-- A guarded checked write loop (receiver allocated, or nothing to write)
succeeds and computes the total run together with its change report. -/
theorem checked_run_eq {s0 : GoSet} {ks : List String} {i : Nat}
    (h : s0 ≠ GoSet.nilset ∨ ks = []) :
    Option.map (fun sb => (sb, decide (sb.size ≠ i))) (s0.insertListC ks) =
      some (s0.insertList ks, decide ((s0.insertList ks).size ≠ i)) := by
  cases s0 with
  | alloc m =>
    rw [insertListC_alloc]
    rfl
  | nilset =>
    rcases h with h | h
    · exact absurd rfl h
    · rw [h]
      rfl

/-- `Contains` answers true exactly when every argument is a member. -/
theorem contains_iff :
    ∀ (s : GoSet) (es : List String),
      (contains s es = true ↔ ∀ e ∈ es, e ∈ s.members)
  | _, [] => by simp [contains]
  | s, e :: es => by
    rw [contains]
    by_cases h : e ∈ s.members
    · rw [if_pos h]
      rw [contains_iff s es]
      simp [h]
    · rw [if_neg h]
      simp [h]

end GoSet

/-- The resolved import list collects exactly the base imports, the
configured imports, and the conditional `fmt`. -/
theorem resolveImports_toFinset (c : Config) :
    (resolveImports c).toFinset =
      baseImports.toFinset ∪ c.imports.toFinset ∪
        (if c.toStringBody = "" then {"fmt"} else ∅) := by
  rw [resolveImports, ← List.toFinset_coe, GoSet.sortedList_coe, Finset.val_toFinset]

/-- Membership in the resolved import list. -/
theorem mem_resolveImports {c : Config} {x : String} :
    x ∈ resolveImports c ↔
      x ∈ baseImports ∨ x ∈ c.imports ∨ (c.toStringBody = "" ∧ x = "fmt") := by
  rw [← List.mem_toFinset, resolveImports_toFinset]
  by_cases h : c.toStringBody = ""
  · simp [h, Finset.mem_union, or_assoc]
  · simp [h, Finset.mem_union, or_assoc]

/-- `validate` succeeds exactly on configurations with the three required
fields present. -/
theorem validate_ok_iff (c : Config) :
    c.validate = .ok () ↔ (c.package ≠ "" ∧ c.typeName ≠ "" ∧ c.zero ≠ "") := by
  rw [Config.validate]
  split_ifs with h1 h2 h3
  · simp [h1]
  · simp [h1, h2]
  · simp [h1, h2, h3]
  · simp [h1, h2, h3]

/-- Overwriting the import list twice keeps only the second write. -/
theorem config_update_imports (c : Config) (l r : List String) :
    ({ { c with imports := l } with imports := r } : Config) =
      { c with imports := r } := rfl

/-- `mainFlow` depends on the configuration only through `readConfig`. -/
theorem mainFlow_congr {c1 c2 : Config} (h : readConfig c1 = readConfig c2) :
    mainFlow c1 = mainFlow c2 := by
  rw [mainFlow, mainFlow, h]

/-- Re-ordering the configured imports does not change `readConfig`. -/
theorem readConfig_perm (c : Config) (l : List String) (h : l.Perm c.imports) :
    readConfig { c with imports := l } = readConfig c := by
  have hR : resolveImports { c with imports := l } = resolveImports c := by
    rw [resolveImports, resolveImports]
    dsimp only
    rw [List.toFinset_eq_of_perm _ _ h]
  rw [readConfig, readConfig]
  dsimp only
  rw [hR]

end GoSets

namespace GoSets

/-- C1: for every argument list, `New` of the mainFile template returns a
non-nil set containing exactly the distinct given elements; called with no
elements it returns a non-nil set that every read operation treats exactly
like the nil (unset) empty set. -/
theorem claim_C1 :
    (∀ elts : List String,
      GoSet.newSet elts ≠ GoSet.nilset ∧
      (GoSet.newSet elts).members = elts.toFinset) ∧
    (GoSet.isEmpty (GoSet.newSet []) = true ∧
     GoSet.size (GoSet.newSet []) = 0 ∧
     GoSet.keys (GoSet.newSet []) = [] ∧
     GoSet.toStr (GoSet.newSet []) = "ø" ∧
     GoSet.equals (GoSet.newSet []) GoSet.nilset = true ∧
     GoSet.equals GoSet.nilset (GoSet.newSet []) = true) := by
  constructor
  · intro elts
    exact ⟨GoSet.newSet_ne_nilset elts, GoSet.members_newSet elts⟩
  · exact ⟨by decide, by decide, by decide, by decide, by decide, by decide⟩

/-- C2: `Contains` (the template's all-elements membership test, the
`ContainsAll` of the stringset package) answers true exactly when the
receiver contains every given element, and vacuously true on an empty
argument list. -/
theorem claim_C2 :
    ∀ (s : GoSet) (es : List String),
      (GoSet.contains s es = true ↔ ∀ e ∈ es, e ∈ s.members) ∧
      GoSet.contains s [] = true :=
  fun s es => ⟨GoSet.contains_iff s es, rfl⟩

/-- C3 (counterexample): it is not true that `Diff` returns the nil set
whenever its mathematical result is empty: an allocated-but-empty receiver
is returned as is. -/
theorem claim_C3_counterexample :
    ¬ (∀ s1 s2 : GoSet,
        ((GoSet.intersect s1 s2).members = ∅ →
          GoSet.intersect s1 s2 = GoSet.nilset) ∧
        ((GoSet.diff s1 s2).members = ∅ → GoSet.diff s1 s2 = GoSet.nilset)) := by
  intro h
  have hd := (h (GoSet.alloc ∅) GoSet.nilset).2 rfl
  exact absurd hd (by decide)

/-- C3 (amended): whenever the mathematical result of `Intersect` is empty
the nil set is returned; `Diff` returns the nil set whenever its result is
empty and its receiver is nil or nonempty, while an allocated-but-empty
receiver is returned unchanged. -/
theorem claim_C3_amended :
    ∀ s1 s2 : GoSet,
      ((GoSet.intersect s1 s2).members = ∅ →
        GoSet.intersect s1 s2 = GoSet.nilset) ∧
      (s1 = GoSet.nilset ∨ s1.members ≠ ∅ →
        (GoSet.diff s1 s2).members = ∅ → GoSet.diff s1 s2 = GoSet.nilset) := by
  intro s1 s2
  constructor
  · intro hm
    rw [GoSet.intersect] at hm ⊢
    by_cases h1 : (s1.isEmpty || s2.isEmpty) = true
    · rw [if_pos h1]
    · rw [if_neg h1] at hm ⊢
      by_cases h2 :
          (Finset.filter (fun k => k ∈ s2.members) s1.members).card = 0
      · rw [if_pos h2]
      · rw [if_neg h2] at hm ⊢
        have ht : Finset.filter (fun k => k ∈ s2.members) s1.members = ∅ := by
          simpa [GoSet.members] using hm
        exact absurd (by rw [ht]; rfl) h2
  · intro hs hm
    rw [GoSet.diff] at hm ⊢
    by_cases h1 : (s1.isEmpty || s2.isEmpty) = true
    · rw [if_pos h1] at hm ⊢
      rcases hs with h | h
      · exact h
      · exact absurd hm h
    · rw [if_neg h1] at hm ⊢
      by_cases h2 :
          (Finset.filter (fun k => k ∉ s2.members) s1.members).card = 0
      · rw [if_pos h2]
      · rw [if_neg h2] at hm ⊢
        have ht : Finset.filter (fun k => k ∉ s2.members) s1.members = ∅ := by
          simpa [GoSet.members] using hm
        exact absurd (by rw [ht]; rfl) h2

/-- C3 (witness): the amended claim applied at concrete inputs. -/
theorem claim_C3_witness :
    GoSet.intersect (GoSet.alloc {"a"}) (GoSet.alloc {"b"}) = GoSet.nilset ∧
    GoSet.diff GoSet.nilset (GoSet.alloc {"a"}) = GoSet.nilset :=
  ⟨(claim_C3_amended (GoSet.alloc {"a"}) (GoSet.alloc {"b"})).1 rfl,
   (claim_C3_amended GoSet.nilset (GoSet.alloc {"a"})).2 (Or.inl rfl) rfl⟩

/-- C4: with any representation of the empty set (nil or allocated-empty)
as second operand, `Union` and `Diff` keep the members of the first, and
`Intersect` and the reversed `Diff` are empty. -/
theorem claim_C4 :
    ∀ a e : GoSet, e.members = ∅ →
      (GoSet.union a e).members = a.members ∧
      (GoSet.intersect a e).members = ∅ ∧
      (GoSet.diff a e).members = a.members ∧
      (GoSet.diff e a).members = ∅ := by
  intro a e he
  refine ⟨?_, ?_, ?_, ?_⟩
  · rw [GoSet.members_union, he, Finset.union_empty]
  · rw [GoSet.members_intersect, he, Finset.inter_empty]
  · rw [GoSet.members_diff, he, Finset.sdiff_empty]
  · rw [GoSet.members_diff, he, Finset.empty_sdiff]

/-- C4 (witness): the empty-set algebra at a concrete set and the nil
empty set. -/
theorem claim_C4_witness :
    GoSet.members GoSet.nilset = ∅ ∧
    ((GoSet.union (GoSet.alloc {"a"}) GoSet.nilset).members =
        (GoSet.alloc {"a"}).members ∧
      (GoSet.intersect (GoSet.alloc {"a"}) GoSet.nilset).members = ∅ ∧
      (GoSet.diff (GoSet.alloc {"a"}) GoSet.nilset).members =
        (GoSet.alloc {"a"}).members ∧
      (GoSet.diff GoSet.nilset (GoSet.alloc {"a"})).members = ∅) :=
  ⟨rfl, claim_C4 (GoSet.alloc {"a"}) GoSet.nilset rfl⟩

/-- C5: `Update`, `Add`, `Remove` and `Discard` report true exactly when
the receiver's membership after the call differs from its membership
before. -/
theorem claim_C5 :
    ∀ (s1 s2 s : GoSet) (ks : List String),
      ((GoSet.update s1 s2).2 = true ↔
        ((GoSet.update s1 s2).1).members ≠ s1.members) ∧
      ((GoSet.add s ks).2 = true ↔ ((GoSet.add s ks).1).members ≠ s.members) ∧
      ((GoSet.remove s1 s2).2 = true ↔
        ((GoSet.remove s1 s2).1).members ≠ s1.members) ∧
      ((GoSet.discard s ks).2 = true ↔
        ((GoSet.discard s ks).1).members ≠ s.members) := by
  intro s1 s2 s ks
  refine ⟨?_, ?_, ?_, ?_⟩
  · exact GoSet.changed_iff_of_superset
      (by rw [GoSet.members_update]; exact Finset.subset_union_left)
      (GoSet.update_snd s1 s2)
  · exact GoSet.changed_iff_of_superset
      (by rw [GoSet.members_add]; exact Finset.subset_union_left)
      (GoSet.add_snd s ks)
  · exact GoSet.changed_iff_of_subset
      (by rw [GoSet.members_remove]; exact Finset.sdiff_subset)
      (GoSet.remove_snd s1 s2)
  · exact GoSet.changed_iff_of_subset
      (by rw [GoSet.members_discard]; exact Finset.sdiff_subset)
      (GoSet.discard_snd s ks)

end GoSets

namespace GoSets

/-- C6: a configuration missing the package name, the type name or the
zero value, or whose test-value list has a length other than 0 or 10, makes
the run fail before any output file is produced. -/
theorem claim_C6 :
    ∀ c : Config,
      (c.package = "" ∨ c.typeName = "" ∨ c.zero = "" ∨
        (c.testValues.length ≠ 0 ∧ c.testValues.length ≠ 10)) →
      isErr (mainFlow c) = true ∧ ∀ fs, mainFlow c ≠ Except.ok fs := by
  intro c h
  have herr : isErr (mainFlow c) = true := by
    rw [mainFlow, readConfig]
    cases hv : Config.validate { c with imports := resolveImports c } with
    | error e => rfl
    | ok u =>
      cases u
      have hne := (validate_ok_iff _).mp hv
      rcases h with h | h | h | ⟨h0, h10⟩
      · exact absurd h hne.1
      · exact absurd h hne.2.1
      · exact absurd h hne.2.2
      · dsimp only
        rw [if_pos ⟨Nat.pos_of_ne_zero h0, h10⟩]
        rfl
  refine ⟨herr, fun fs hEq => ?_⟩
  rw [hEq] at herr
  cases herr

/-- C6 (witness): a configuration with exactly nine test values is
rejected and produces no file. -/
theorem claim_C6_witness :
    isErr (mainFlow
      { desc := "", package := "intset", typeName := "int", zero := "0",
        decl := "", less := "", toStringBody := "", imports := [],
        testImports := [], transforms := true,
        testValues := ["1", "2", "3", "4", "5", "6", "7", "8", "9"] }) = true :=
  (claim_C6 _ (Or.inr (Or.inr (Or.inr ⟨by decide, by decide⟩)))).1

/-- C7: popping the length-2 element from `New("a","bc","def","ghij")`
returns `("bc", true)` and leaves the elements `["a","def","ghij"]`; in
general `Pop` returns exactly what `Choose` returns and, when an element is
found, removes exactly that element, else leaves the set untouched. -/
theorem claim_C7 :
    ((GoSet.pop (GoSet.newSet ["a", "bc", "def", "ghij"])
        (some (fun c => c.length == 2))).1 = ("bc", true) ∧
      GoSet.keys (GoSet.pop (GoSet.newSet ["a", "bc", "def", "ghij"])
        (some (fun c => c.length == 2))).2 = ["a", "def", "ghij"]) ∧
    ∀ (s : GoSet) (f : Option (String → Bool)),
      (GoSet.pop s f).1 = GoSet.choose s f ∧
      ((GoSet.choose s f).2 = true →
        ((GoSet.pop s f).2).members =
          s.members.erase (GoSet.choose s f).1) ∧
      ((GoSet.choose s f).2 = false → (GoSet.pop s f).2 = s) := by
  constructor
  · exact ⟨by decide, by decide⟩
  · intro s f
    cases hb : (GoSet.choose s f).2
    · have hcf : GoSet.choose s f = ("", false) := by
        rcases f with _ | p
        · rw [GoSet.choose] at hb ⊢
          cases hk : s.keys with
          | nil => rfl
          | cons k t =>
            rw [hk] at hb
            exact Bool.noConfusion hb
        · rw [GoSet.choose] at hb ⊢
          cases hf : List.find? p s.keys with
          | none => rfl
          | some k =>
            rw [hf] at hb
            exact Bool.noConfusion hb
      refine ⟨?_, ?_, ?_⟩
      · rw [GoSet.pop, hcf]
      · intro hx
        exact Bool.noConfusion hx
      · intro _
        rw [GoSet.pop, hcf]
    · have hcv : GoSet.choose s f = ((GoSet.choose s f).1, true) := by
        rw [← hb]
      refine ⟨?_, ?_, ?_⟩
      · rw [GoSet.pop, hcv]
      · intro _
        rw [GoSet.pop, hcv]
        exact GoSet.members_mapDelete s (GoSet.choose s f).1
      · intro hx
        exact Bool.noConfusion hx

/-- C7 (witness): the general part of C7 applied at a concrete set with a
found element. -/
theorem claim_C7_witness :
    (GoSet.choose (GoSet.newSet ["a", "bc"]) none).2 = true ∧
    ((GoSet.pop (GoSet.newSet ["a", "bc"]) none).2).members =
      (GoSet.newSet ["a", "bc"]).members.erase
        (GoSet.choose (GoSet.newSet ["a", "bc"]) none).1 :=
  ⟨by decide, (claim_C7.2 (GoSet.newSet ["a", "bc"]) none).2.1 (by decide)⟩

/-- C8: `NewSize` fails exactly on a negative pre-size, while the mutating
operations whose code writes through a possibly-nil map (`Add`, `Update`)
never panic: their checked runs always succeed and compute the plain
results. -/
theorem claim_C8 :
    (∀ n : Int, GoSet.newSize n = none ↔ n < 0) ∧
    (∀ (s : GoSet) (ks : List String),
      GoSet.addC s ks = some (GoSet.add s ks)) ∧
    (∀ s1 s2 : GoSet, GoSet.updateC s1 s2 = some (GoSet.update s1 s2)) := by
  refine ⟨?_, ?_, ?_⟩
  · intro n
    rw [GoSet.newSize]
    split_ifs with h
    · simp [h]
    · simp [h]
  · intro s ks
    rw [GoSet.addC, GoSet.add]
    apply GoSet.checked_run_eq
    cases s with
    | nilset => exact Or.inl (by simp)
    | alloc m => exact Or.inl (by simp)
  · intro s1 s2
    rw [GoSet.updateC, GoSet.update]
    apply GoSet.checked_run_eq
    by_cases h : s1 = GoSet.nilset ∧ 0 < GoSet.size s2
    · exact Or.inl (by simp [h])
    · cases s1 with
      | alloc m => exact Or.inl (by simp)
      | nilset =>
        have h2 : GoSet.size s2 = 0 := by
          by_contra hh
          exact h ⟨rfl, Nat.pos_of_ne_zero hh⟩
        have hk : GoSet.keys s2 = [] := by
          rw [GoSet.keys, Finset.card_eq_zero.mp h2]
          rfl
        exact Or.inr hk

/-- C9: the resolved import list is the sorted deduplication of the base
imports, the configured imports, and `fmt` exactly when the `toString`
body is absent; resolving a permuted import list gives the same run, and
resolution is idempotent. -/
theorem claim_C9 :
    ∀ (c : Config) (l : List String),
      (resolveImports c).Sorted (fun a b => strLe a b = true) ∧
      (resolveImports c).Nodup ∧
      (∀ x, x ∈ resolveImports c ↔
        (x ∈ baseImports ∨ x ∈ c.imports ∨
          (c.toStringBody = "" ∧ x = "fmt"))) ∧
      (l.Perm c.imports → mainFlow { c with imports := l } = mainFlow c) ∧
      resolveImports { c with imports := resolveImports c } =
        resolveImports c := by
  intro c l
  refine ⟨GoSet.sortedList_sorted _, GoSet.sortedList_nodup _ (Finset.nodup _),
    fun x => mem_resolveImports, fun h => mainFlow_congr (readConfig_perm c l h),
    ?_⟩
  have hU : baseImports.toFinset ∪ (resolveImports c).toFinset ∪
      (if c.toStringBody = "" then ({"fmt"} : Finset String) else ∅) =
      baseImports.toFinset ∪ c.imports.toFinset ∪
      (if c.toStringBody = "" then {"fmt"} else ∅) := by
    rw [resolveImports_toFinset]
    ext x
    simp only [Finset.mem_union]
    tauto
  show GoSet.sortedList
      ((baseImports.toFinset ∪ (resolveImports c).toFinset ∪
        (if c.toStringBody = "" then {"fmt"} else ∅)).val) = resolveImports c
  rw [hU]
  rfl

/-- C9 (witness): permuting a concrete configured import list leaves the
run unchanged. -/
theorem claim_C9_witness :
    mainFlow
      { desc := "", package := "strset", typeName := "string", zero := "\"\"",
        decl := "", less := "", toStringBody := "", imports := ["strconv", "bytes"],
        testImports := [], transforms := false, testValues := [] } =
    mainFlow
      { desc := "", package := "strset", typeName := "string", zero := "\"\"",
        decl := "", less := "", toStringBody := "", imports := ["bytes", "strconv"],
        testImports := [], transforms := false, testValues := [] } :=
  (claim_C9
    { desc := "", package := "strset", typeName := "string", zero := "\"\"",
      decl := "", less := "", toStringBody := "", imports := ["bytes", "strconv"],
      testImports := [], transforms := false, testValues := [] }
    ["strconv", "bytes"]).2.2.2.1 (List.Perm.swap "bytes" "strconv" [])

/-- C10: `String` of the stringset package renders every empty set (nil or
allocated) as `ø`, and a nonempty set as the quoted keys in ascending
byte-wise order joined by commas between braces. -/
theorem claim_C10 :
    ∀ s : GoSet,
      (s.members = ∅ → GoSet.toStr s = "ø") ∧
      (s.members ≠ ∅ →
        GoSet.toStr s =
          "\x7b" ++ String.intercalate ", "
            ((GoSet.keys s).map GoSet.quote) ++ "\x7d") ∧
      (GoSet.keys s).Sorted (fun a b => strLe a b = true) ∧
      (∀ x, x ∈ GoSet.keys s ↔ x ∈ s.members) ∧
      GoSet.toStr GoSet.nilset = GoSet.toStr (GoSet.alloc ∅) := by
  intro s
  refine ⟨?_, ?_, GoSet.keys_sorted s, fun x => GoSet.mem_keys, rfl⟩
  · intro h
    rw [GoSet.toStr, if_pos (GoSet.isEmpty_iff.mpr h)]
  · intro h
    rw [GoSet.toStr, if_neg (fun hh => h (GoSet.isEmpty_iff.mp hh))]

/-- C10 (witness): the rendering of the nil empty set and of a concrete
two-element set. -/
theorem claim_C10_witness :
    GoSet.toStr GoSet.nilset = "ø" ∧
    GoSet.toStr (GoSet.newSet ["b", "a"]) =
      "\x7b" ++ String.intercalate ", "
        ((GoSet.keys (GoSet.newSet ["b", "a"])).map GoSet.quote) ++ "\x7d" :=
  ⟨(claim_C10 GoSet.nilset).1 rfl,
   (claim_C10 (GoSet.newSet ["b", "a"])).2.1
     (by simp [GoSet.members_newSet])⟩

end GoSets
